import Mathlib

/- Verification of filegate, a sandboxed file-operation proxy.  The file
embeds the path gate, the ownership mode derivation, the query-parameter
parsers, the index store, the unique-name helper and the chunked-upload
engine as executable Lean definitions translated from the TypeScript
source, and proves theorems about their behaviour. -/

namespace Filegate

/-- Boolean string prefix test, modelling JS String.prototype.startsWith
(and the SQL-free string comparisons of the source). -/
def strStartsWith (s p : String) : Bool := p.data.isPrefixOf s.data

/-- Result of a realpath call: the resolved path, an ENOENT failure, or any
other resolution error (the source distinguishes exactly these three). -/
inductive RpRes
  | ok (s : String)
  | enoent
  | err
deriving DecidableEq

/-- Environment of the path gate: the node path-library functions used by
src/lib/path.ts, the filesystem realpath at the moment of the call, and the
configured base paths.  mkdir and chown side effects of createParents are
filesystem effects; the env is the snapshot after them. -/
structure PathEnv where
  normalize : String → String
  dirname : String → String
  basename : String → String
  joinP : String → String → String
  realpath : String → RpRes
  allowedPaths : List String

/-- Result type of validatePath (PathResult in src/lib/path.ts); the source
also smuggles a 500 through this type for an invalid base. -/
inductive PathResult
  | ok (realPath basePath : String)
  | err (msg : String) (status : Nat)
deriving DecidableEq

/-- Ownership tuple as parsed by the service: uid, gid, file mode, optional
directory mode (src/lib/ownership.ts). -/
structure Ownership where
  uid : Nat
  gid : Nat
  mode : Nat
  dirMode : Option Nat
deriving DecidableEq

/-- Options of validatePath (src/lib/path.ts).  createParents and ownership
trigger only mkdir and chown side effects on the filesystem, which the
embedding represents through the PathEnv snapshot, so the returned value is
a function of the env alone. -/
structure ValidatePathOptions where
  allowBasePath : Bool
  createParents : Bool
  ownership : Option Ownership

/-- Default options of validatePath: all off. -/
def vpDefaults : ValidatePathOptions := ⟨false, false, none⟩

/-- Base-matching loop of validatePath: the first configured base whose
normalized form equals the cleaned path (allowed only with allowBasePath)
or is a proper ancestor of it (cleaned starts with base plus a slash). -/
def findMatchingBase (norm : String → String) (cleaned : String) (allowBasePath : Bool) :
    List String → Except PathResult (Option String)
  | [] => .ok none
  | base :: rest =>
    let cleanBase := norm base
    if cleaned = cleanBase then
      if allowBasePath then .ok (some cleanBase)
      else .error (.err "cannot operate on base path" 403)
    else if strStartsWith cleaned (cleanBase ++ "/") then .ok (some cleanBase)
    else findMatchingBase norm cleaned allowBasePath rest

/-- Symlink-resolution step of validatePath: realpath on the cleaned path;
on ENOENT fall back to realpath(parent)/basename, failing 404 when the
parent does not resolve; any other resolution error fails 400. -/
def resolveTarget (env : PathEnv) (cleaned : String) : Except PathResult String :=
  match env.realpath cleaned with
  | .ok rp => .ok rp
  | .enoent =>
    match env.realpath (env.dirname cleaned) with
    | .ok parentReal => .ok (env.joinP parentReal (env.basename cleaned))
    | _ => .error (.err "parent path not found" 404)
  | .err => .error (.err "path resolution failed" 400)

/-- The path gate (validatePath of src/lib/path.ts): normalize the input,
match a configured base, resolve symlinks, then re-check containment of the
resolved path against the cached realpath of the matched base.  The source
binds cleaned to normalize(path) once; here the call is written out at each
of its two uses. -/
def validatePath (env : PathEnv) (path : String) (opts : ValidatePathOptions) : PathResult :=
  match findMatchingBase env.normalize (env.normalize path) opts.allowBasePath
      env.allowedPaths with
  | .error e => e
  | .ok none => .err "path not allowed" 403
  | .ok (some basePath) =>
    match resolveTarget env (env.normalize path) with
    | .error e => e
    | .ok realPath =>
      match env.realpath basePath with
      | .ok realBase =>
        if realPath ≠ realBase ∧ strStartsWith realPath (realBase ++ "/") = false then
          .err "symlink escape not allowed" 403
        else .ok realPath realBase
      | _ => .err "base path invalid" 500

/-- Concrete path environment with one base /base containing a symlink
/base/link that resolves to /var, outside the base. -/
def cPathEnv : PathEnv :=
  ⟨fun s => s,
   fun s => if s = "/base/link" then "/base" else "/",
   fun s => if s = "/base/link" then "link" else s,
   fun a b => a ++ "/" ++ b,
   fun s => if s = "/base" then .ok "/base"
            else if s = "/base/link" then .ok "/var" else .enoent,
   ["/base"]⟩

/-- Directory-mode derivation (fileModeToDirectoryMode of
src/lib/ownership.ts): each principal whose read bit is set in the file
mode also gets the execute bit. -/
def fileModeToDirectoryMode (fileMode : Nat) : Nat :=
  let d1 := if fileMode &&& 0o400 ≠ 0 then fileMode ||| 0o100 else fileMode
  let d2 := if fileMode &&& 0o040 ≠ 0 then d1 ||| 0o010 else d1
  if fileMode &&& 0o004 ≠ 0 then d2 ||| 0o001 else d2

/-- Parser of the showHidden string-boolean query parameter (InfoQuerySchema
and SearchQuerySchema in src/schemas.ts): true exactly on the value
"true". -/
def parseShowHidden (v : Option String) : Bool := v == some "true"

/-- Parser of the inline query parameter (ContentQuerySchema): true exactly
on the value "true". -/
def parseInlineFlag (v : Option String) : Bool := v == some "true"

/-- Parser of the files toggle (SearchQuerySchema): false exactly on the
value "false", so absence gives true. -/
def parseFilesToggle (v : Option String) : Bool := v != some "false"

/-- Parser of the directories toggle (SearchQuerySchema): true exactly on
the value "true". -/
def parseDirectoriesToggle (v : Option String) : Bool := v == some "true"

/-- Stat fields handed to indexFile (StatInfo in src/lib/index.ts). -/
structure StatInfo where
  dev : Nat
  ino : Nat
  size : Nat
  mtimeMs : Nat
  isDirectory : Bool
deriving DecidableEq

/-- Row of the file_index table; is_dir is stored as 0 or 1 and modelled as
a Bool. -/
structure Row where
  id : String
  basePath : String
  relPath : String
  dev : Nat
  ino : Nat
  size : Nat
  mtimeMs : Nat
  isDir : Bool
  indexedAt : Nat
deriving DecidableEq

/-- Action reported by indexFile. -/
inductive IndexAction
  | existing
  | moved
  | added
deriving DecidableEq

/-- Outcome of indexFile (IndexOutcome in src/lib/index.ts). -/
structure IndexOutcome where
  id : String
  action : IndexAction
deriving DecidableEq

/-- Predicate of the first SELECT of indexFile: the row at the given
location. -/
def pathMatches (basePath relPath : String) (r : Row) : Bool :=
  r.basePath == basePath && r.relPath == relPath

/-- Predicate of the second SELECT of indexFile: the row with the given
inode identity. -/
def inodeMatches (s : StatInfo) (r : Row) : Bool :=
  r.dev == s.dev && r.ino == s.ino

/-- UPDATE of the existing-path branch of indexFile: refresh the stat
fields and indexed_at of the row, keeping id and location. -/
def updStat (s : StatInfo) (ts : Nat) (q : Row) : Row :=
  { q with dev := s.dev, ino := s.ino, size := s.size, mtimeMs := s.mtimeMs,
           isDir := s.isDirectory, indexedAt := ts }

/-- UPDATE of the moved branch of indexFile: overwrite the location and the
stat fields, keeping id, dev and ino. -/
def updMove (basePath relPath : String) (s : StatInfo) (ts : Nat) (q : Row) : Row :=
  { q with basePath := basePath, relPath := relPath, size := s.size,
           mtimeMs := s.mtimeMs, isDir := s.isDirectory, indexedAt := ts }

/-- Fresh row INSERTed by indexFile; the freshly generated UUID v7 comes in
as the genId argument (the source draws it from the clock and the system
random generator). -/
def mkRow (genId basePath relPath : String) (s : StatInfo) (ts : Nat) : Row :=
  ⟨genId, basePath, relPath, s.dev, s.ino, s.size, s.mtimeMs, s.isDirectory, ts⟩

/-- Identity algorithm of the index store (indexFile in src/lib/index.ts):
look up by (base_path, rel_path) first and refresh the row in place; else
look up by (dev, ino) and move that row; else insert a fresh row.  SELECT
takes the first matching row of the table; UPDATE by id touches every row
carrying that id. -/
def indexFile (genId basePath relPath : String) (s : StatInfo) (indexedAt : Nat)
    (tbl : List Row) : List Row × IndexOutcome :=
  match tbl.find? (pathMatches basePath relPath) with
  | some r =>
    (tbl.map (fun q => if q.id = r.id then updStat s indexedAt q else q),
     ⟨r.id, .existing⟩)
  | none =>
    match tbl.find? (inodeMatches s) with
    | some r =>
      (tbl.map (fun q => if q.id = r.id then updMove basePath relPath s indexedAt q else q),
       ⟨r.id, .moved⟩)
    | none =>
      (tbl ++ [mkRow genId basePath relPath s indexedAt], ⟨genId, .added⟩)

/-- Concrete rows used by the index-store witnesses. -/
def cRow1 : Row := ⟨"id1", "b", "x", 1, 10, 5, 0, false, 0⟩

/-- A second concrete row with a different path and a different inode. -/
def cRow2 : Row := ⟨"id2", "b", "y", 1, 11, 6, 0, false, 0⟩

/-- SQL LIKE matching with ESCAPE, over character lists, with the standard
case-sensitive semantics: percent matches any sequence, underscore matches
any single character, and the backslash escape makes the next pattern
character literal (a trailing lone escape matches nothing). -/
def likeMatch (p s : List Char) : Bool :=
  match p, s with
  | [], s => s.isEmpty
  | c :: ps, s =>
    if c = '%' then
      likeMatch ps s ||
        (match s with
         | [] => false
         | _ :: s2 => likeMatch (c :: ps) s2)
    else if c = '_' then
      match s with
      | [] => false
      | _ :: s2 => likeMatch ps s2
    else if c = '\\' then
      match ps with
      | [] => false
      | q :: ps2 =>
        match s with
        | [] => false
        | d :: s2 => d == q && likeMatch ps2 s2
    else
      match s with
      | [] => false
      | d :: s2 => d == c && likeMatch ps s2
termination_by (p.length, s.length)

/-- Escape of one character for a LIKE pattern (the regex replacement of
escapeLike in src/lib/index.ts applied to one character). -/
def escapeChar (c : Char) : List Char :=
  if c = '\\' ∨ c = '%' ∨ c = '_' then ['\\', c] else [c]

/-- escapeLike of src/lib/index.ts: backslash-escape every backslash,
percent and underscore of the value. -/
def escapeLike (value : String) : String :=
  String.mk (value.data.flatMap escapeChar)

/-- removeFromIndexRecursive of src/lib/index.ts: with an empty relPath
delete every row of the base; otherwise delete the rows of the base whose
rel_path equals relPath or matches the LIKE pattern
escapeLike(relPath) + slash + percent with backslash as escape. -/
def removeFromIndexRecursive (basePath relPath : String) (tbl : List Row) : List Row :=
  if relPath = "" then tbl.filter (fun r => !(r.basePath == basePath))
  else
    let likePattern := escapeLike relPath ++ "/" ++ "%"
    tbl.filter (fun r =>
      !(r.basePath == basePath &&
        (r.relPath == relPath || likeMatch likePattern.data r.relPath.data)))

/-- Concrete row for the C5 witness: the directory a%b itself. -/
def cRow3 : Row := ⟨"id3", "b", "a%b", 1, 12, 0, 0, true, 0⟩

/-- Concrete row for the C5 witness: a child of a%b. -/
def cRow4 : Row := ⟨"id4", "b", "a%b/c", 1, 13, 0, 0, false, 0⟩

/-- Concrete row for the C5 witness: a child of the sibling axb, whose name
matches the unescaped pattern but not the escaped one. -/
def cRow5 : Row := ⟨"id5", "b", "axb/c", 1, 14, 0, 0, false, 0⟩

/-- Decimal digit characters of n, most significant first, with a fuel
bound (any fuel above the digit count gives the same value; n + 1 is
enough).  Together with natToString this models the JS String() conversion
and template interpolation of numbers. -/
def natDecimalAux (fuel n : Nat) : List Char :=
  match fuel with
  | 0 => []
  | fuel + 1 =>
    if n < 10 then [Char.ofNat (48 + n)]
    else natDecimalAux fuel (n / 10) ++ [Char.ofNat (48 + n % 10)]

/-- Decimal string of a number, modelling the JS number-to-string
conversion used for chunk file names, suffixes and messages. -/
def natToString (n : Nat) : String := String.mk (natDecimalAux (n + 1) n)

/-- Environment of getUniquePath (src/handlers/files.ts): the node path
helpers, the existence probe (fs access resolves) and the clock
(Date.now in unix milliseconds). -/
structure UniqueEnv where
  dirname : String → String
  extname : String → String
  basenameExt : String → String → String
  joinP : String → String → String
  access : String → Bool
  now : Nat

/-- JS padStart(2, "0") on a string: prepend zeros up to length two. -/
def padStart2 (s : String) : String :=
  if s.data.length < 2 then String.mk (List.replicate (2 - s.data.length) '0') ++ s else s

/-- Candidate path of the getUniquePath loop body:
dir/base-SUFFIX ext with the two-digit zero-padded suffix. -/
def uniqueCandidate (env : UniqueEnv) (dir base ext : String) (i : Nat) : String :=
  env.joinP dir (base ++ "-" ++ padStart2 (natToString i) ++ ext)

/-- Loop of getUniquePath: try the suffixes i, i+1, ... for fuel steps and
return the first whose candidate does not exist. -/
def findFreeSuffix (env : UniqueEnv) (dir base ext : String) : Nat → Nat → Option Nat
  | _, 0 => none
  | i, fuel + 1 =>
    if env.access (uniqueCandidate env dir base ext i) then
      findFreeSuffix env dir base ext (i + 1) fuel
    else some i

/-- getUniquePath of src/handlers/files.ts: return the target when nothing
exists there; otherwise the first free dir/base-NN ext for NN from 01 to
99; when all are taken, fall back to the Date.now() timestamp suffix.
The source binds dir, ext and base to node dirname, extname and
basename(path, ext); here those calls are written out at each use. -/
def getUniquePath (env : UniqueEnv) (targetPath : String) : String :=
  if env.access targetPath = false then targetPath
  else
    match findFreeSuffix env (env.dirname targetPath)
        (env.basenameExt targetPath (env.extname targetPath))
        (env.extname targetPath) 1 99 with
    | some i => uniqueCandidate env (env.dirname targetPath)
        (env.basenameExt targetPath (env.extname targetPath))
        (env.extname targetPath) i
    | none => env.joinP (env.dirname targetPath)
        (env.basenameExt targetPath (env.extname targetPath) ++ "-" ++
          natToString env.now ++ env.extname targetPath)

/-- Concrete environment for the C7 witness: /d/a.txt and /d/a-01.txt
exist, nothing else does. -/
def cUniqueEnv : UniqueEnv :=
  ⟨fun _ => "/d",
   fun _ => ".txt",
   fun _ _ => "a",
   fun a b => a ++ "/" ++ b,
   fun s => s == "/d/a.txt" || s == "/d/a-01.txt",
   1700000000000⟩

/-- JS parseInt(s, 10): skip leading whitespace and an optional sign, then
take the leading run of decimal digits; none models NaN (no digit found). -/
def leadingDigits : List Char → List Char
  | [] => []
  | c :: cs => if c.isDigit then c :: leadingDigits cs else []

/-- Value of a list of decimal digit characters, most significant first. -/
def digitsToNat (ds : List Char) : Nat :=
  ds.foldl (fun a c => a * 10 + (c.toNat - 48)) 0

/-- JS parseInt(s, 10) (used on chunk file names and on the limit query
parameter); whitespace here covers the common ASCII kinds. -/
def jsParseInt (s : String) : Option Int :=
  match s.data.dropWhile (fun c => c == ' ' || c == '\t' || c == '\n' || c == '\r') with
  | '-' :: t =>
    if (leadingDigits t).isEmpty then none
    else some (-(digitsToNat (leadingDigits t) : Int))
  | '+' :: t =>
    if (leadingDigits t).isEmpty then none
    else some ((digitsToNat (leadingDigits t) : Int))
  | cs =>
    if (leadingDigits cs).isEmpty then none
    else some ((digitsToNat (leadingDigits cs) : Int))

/-- getUploadedChunks of the upload engine (src/handlers/upload.ts): list
the session directory, drop meta.json, parse every remaining name with
parseInt, drop the NaN results, and sort ascending numerically (the
comparator a - b; JS sort is modelled by a stable sort). -/
def getUploadedChunks (files : List String) : List Int :=
  List.insertionSort (· ≤ ·)
    ((files.filter (fun f => !(f == "meta.json"))).filterMap jsParseInt)

/-- Session metadata persisted at meta.json (UploadMeta of the upload
engine). -/
structure UploadMeta where
  uploadId : String
  path : String
  filename : String
  size : Nat
  checksum : String
  chunkSize : Nat
  totalChunks : Nat
  ownership : Option Ownership
  createdAt : Nat
deriving DecidableEq

/-- One session directory under the upload temp dir: the optional meta.json
content and the chunk files by name. -/
structure SessionDir where
  meta : Option UploadMeta
  files : List (String × List Nat)
deriving DecidableEq

/-- Filesystem state touched by the upload engine: the session directories
by upload id and the destination filesystem by real path (bytes are listed
as numbers). -/
structure UploadState where
  sessions : List (String × SessionDir)
  destFs : List (String × List Nat)
deriving DecidableEq

/-- Environment of the upload engine: the path gate environment, the
SHA-256 hex digest on bytes and on strings, the size caps, the result of
applyOwnership per path and ownership, and the clock. -/
structure UploadEnv where
  pathEnv : PathEnv
  shaHex : List Nat → String
  shaHexStr : String → String
  maxUploadBytes : Nat
  maxChunkBytes : Nat
  applyOwn : String → Option Ownership → Option String
  now : Nat

/-- computeUploadId of the upload engine: the first 16 hex characters of
the SHA-256 of path:filename:checksum (the digest via the environment). -/
def computeUploadId (shaHexStr : String → String) (path filename checksum : String) : String :=
  String.mk ((shaHexStr (path ++ ":" ++ filename ++ ":" ++ checksum)).data.take 16)

/-- The session directory of an upload id, when it exists. -/
def findSession (st : UploadState) (id : String) : Option SessionDir :=
  List.lookup id st.sessions

/-- loadMeta: none when the directory or its meta.json is missing or
unreadable. -/
def loadMeta (st : UploadState) (id : String) : Option UploadMeta :=
  match findSession st id with
  | none => none
  | some d => d.meta

/-- Chunk files of a session ([] when the directory is missing). -/
def sessionFiles (st : UploadState) (id : String) : List (String × List Nat) :=
  match findSession st id with
  | none => []
  | some d => d.files

/-- readdir of a session directory: meta.json when present, and the chunk
files. -/
def sessionListing (d : SessionDir) : List String :=
  (if d.meta.isSome then ["meta.json"] else []) ++ d.files.map Prod.fst

/-- getUploadedChunks applied to the on-disk session directory of an id;
the readdir failure on a missing directory yields []. -/
def getUploadedChunksFs (st : UploadState) (id : String) : List Int :=
  match findSession st id with
  | none => []
  | some d => getUploadedChunks (sessionListing d)

/-- Replacement of a session directory in the state. -/
def setSession (st : UploadState) (id : String) (d : SessionDir) : UploadState :=
  ⟨(id, d) :: st.sessions.filter (fun p => !(p.1 == id)), st.destFs⟩

/-- rm -r of a session directory (cleanupUpload). -/
def removeSession (st : UploadState) (id : String) : UploadState :=
  ⟨st.sessions.filter (fun p => !(p.1 == id)), st.destFs⟩

/-- Write of a destination file (the Bun writer after end). -/
def writeDest (st : UploadState) (path : String) (bytes : List Nat) : UploadState :=
  ⟨st.sessions, (path, bytes) :: st.destFs.filter (fun p => !(p.1 == path))⟩

/-- rm of a destination file. -/
def removeDest (st : UploadState) (path : String) : UploadState :=
  ⟨st.sessions, st.destFs.filter (fun p => !(p.1 == path))⟩

/-- saveMeta: mkdir -p of the session directory and write of meta.json,
keeping any chunk files already there. -/
def saveMeta (st : UploadState) (meta : UploadMeta) : UploadState :=
  match findSession st meta.uploadId with
  | none => setSession st meta.uploadId ⟨some meta, []⟩
  | some d => setSession st meta.uploadId ⟨some meta, d.files⟩

/-- Commit of a chunk: the write of index.tmp followed by the atomic rename
onto the index name (mkdir -p of the directory when missing). -/
def commitChunk (st : UploadState) (id : String) (name : String) (bytes : List Nat) :
    UploadState :=
  match findSession st id with
  | none => setSession st id ⟨none, [(name, bytes)]⟩
  | some d => setSession st id ⟨d.meta, (name, bytes) :: d.files.filter (fun p => !(p.1 == name))⟩

/-- Read loop of assembly from chunk index i for fuel steps: concatenate
the chunk files in index order or report the first missing index. -/
def readChunksFrom (files : List (String × List Nat)) (i : Nat) : Nat → Except Nat (List Nat)
  | 0 => .ok []
  | fuel + 1 =>
    match List.lookup (natToString i) files with
    | none => .error i
    | some bytes =>
      match readChunksFrom files (i + 1) fuel with
      | .error j => .error j
      | .ok rest => .ok (bytes ++ rest)

/-- Comma-separated decimal rendering of the missing chunk indices. -/
def joinCommaInts (l : List Int) : String :=
  String.intercalate ", " (l.map (fun i => toString i))

/-- assembleFile of the upload engine: re-list the chunks (returning
silently when another assembler already finished), check count and
completeness, path-gate the destination, concatenate the chunks in order
while hashing, verify the whole-file digest against meta.checksum
unlinking the destination on mismatch, apply ownership, and remove the
session directory.  The per-upload semaphore serializes assemblers; the
embedding is the body it protects, acting on the state snapshot. -/
def assembleFile (env : UploadEnv) (meta : UploadMeta) (st : UploadState) :
    UploadState × Option String :=
  if (getUploadedChunksFs st meta.uploadId).length = 0 then (st, none)
  else if !((getUploadedChunksFs st meta.uploadId).length == meta.totalChunks) then
    (st, some "missing chunks")
  else if !(((List.range meta.totalChunks).map (fun i : Nat => (i : Int))).filter
      (fun i => !((getUploadedChunksFs st meta.uploadId).contains i))).isEmpty then
    (st, some ("missing chunk indices: " ++
      joinCommaInts (((List.range meta.totalChunks).map (fun i : Nat => (i : Int))).filter
        (fun i => !((getUploadedChunksFs st meta.uploadId).contains i)))))
  else
    match validatePath env.pathEnv (env.pathEnv.joinP meta.path meta.filename) vpDefaults with
    | .err msg _ => (st, some msg)
    | .ok realPath _ =>
      match readChunksFrom (sessionFiles st meta.uploadId) 0 meta.totalChunks with
      | .error i =>
        (removeDest st realPath,
         some ("chunk " ++ natToString i ++ " not found during assembly"))
      | .ok data =>
        if !(("sha256:" ++ env.shaHex data) == meta.checksum) then
          (removeDest (writeDest st realPath data) realPath,
           some ("checksum mismatch: expected " ++ meta.checksum ++ ", got " ++
             ("sha256:" ++ env.shaHex data)))
        else
          match env.applyOwn realPath meta.ownership with
          | some e => (removeDest (writeDest st realPath data) realPath, some e)
          | none => (removeSession (writeDest st realPath data) meta.uploadId, none)

/-- Validated headers of POST /upload/chunk. -/
structure ChunkHeaders where
  uploadId : String
  chunkIndex : Nat
  chunkChecksum : Option String
deriving DecidableEq

/-- Response of POST /upload/chunk; the completed response's size, mtime
and mimeType come from a stat syscall on the written file and stay outside
the embedding. -/
inductive ChunkResponse
  | errR (msg : String) (status : Nat)
  | progress (chunkIndex : Nat) (uploadedChunks : List Int)
  | completedR (name path checksum : String) (isHidden : Bool)
deriving DecidableEq

/-- Commit and completion step of the chunk handler: rename the verified
temp chunk onto its index name under the request's upload id, re-list that
directory, and when the count reaches totalChunks run assembly (which works
on meta.uploadId), mapping an assembly error to a 500 and success to the
completed response; otherwise answer with progress. -/
def chunkCommitStep (env : UploadEnv) (st : UploadState) (meta : UploadMeta)
    (uploadId : String) (chunkIndex : Nat) (body : List Nat) :
    UploadState × ChunkResponse :=
  if (getUploadedChunksFs (commitChunk st uploadId (natToString chunkIndex) body)
      uploadId).length == meta.totalChunks then
    match assembleFile env meta (commitChunk st uploadId (natToString chunkIndex) body) with
    | (st2, some e) => (st2, .errR e 500)
    | (st2, none) =>
      (st2, .completedR meta.filename (env.pathEnv.joinP meta.path meta.filename)
        meta.checksum (strStartsWith meta.filename "."))
  else (commitChunk st uploadId (natToString chunkIndex) body,
    .progress chunkIndex (getUploadedChunksFs
      (commitChunk st uploadId (natToString chunkIndex) body) uploadId))

/-- POST /upload/chunk handler: load the meta (404 when unknown), bound the
chunk index (400), stream the body within the chunk cap (413), verify the
optional chunk checksum (400, removing the temp file), then commit and
possibly assemble. -/
def uploadChunk (env : UploadEnv) (st : UploadState) (h : ChunkHeaders)
    (body : List Nat) : UploadState × ChunkResponse :=
  match loadMeta st h.uploadId with
  | none => (st, .errR "upload not found" 404)
  | some meta =>
    if h.chunkIndex ≥ meta.totalChunks then
      (st, .errR ("chunk index " ++ natToString h.chunkIndex ++ " exceeds total " ++
        natToString meta.totalChunks) 400)
    else if body.length > env.maxChunkBytes then
      (st, .errR ("chunk size exceeds maximum (" ++
        natToString (env.maxChunkBytes / 1024 / 1024) ++ "MB)") 413)
    else
      match h.chunkChecksum with
      | some c =>
        if !(("sha256:" ++ env.shaHex body) == c) then
          (st, .errR ("chunk checksum mismatch: expected " ++ c ++ ", got " ++
            ("sha256:" ++ env.shaHex body)) 400)
        else chunkCommitStep env st meta h.uploadId h.chunkIndex body
      | none => chunkCommitStep env st meta h.uploadId h.chunkIndex body

/-- Validated body of POST /upload/start. -/
structure StartBody where
  path : String
  filename : String
  size : Nat
  checksum : String
  chunkSize : Nat
  ownerUid : Option Nat
  ownerGid : Option Nat
  mode : Option String
  dirMode : Option String
deriving DecidableEq

/-- Response of POST /upload/start; okR always carries completed false in
the source. -/
inductive StartResponse
  | errR (msg : String) (status : Nat)
  | okR (uploadId : String) (totalChunks chunkSize : Nat) (uploadedChunks : List Int)
deriving DecidableEq

/-- parseInt(s, 8) on the schema-validated three or four digit octal mode
strings. -/
def parseOctal (s : String) : Nat :=
  s.data.foldl (fun a c => a * 8 + (c.toNat - 48)) 0

/-- Ownership built by the start handler from the body: present only when
uid, gid and mode are all given. -/
def bodyOwnership (b : StartBody) : Option Ownership :=
  match b.ownerUid, b.ownerGid, b.mode with
  | some uid, some gid, some m => some ⟨uid, gid, parseOctal m, b.dirMode.map parseOctal⟩
  | _, _, _ => none

/-- POST /upload/start handler: size caps (413 and 400), path gate on
path/filename with createParents and the body ownership, deterministic
upload id, then resume (refresh createdAt, report the chunk indices on
disk) or creation of fresh session metadata with
totalChunks = ceil(size / chunkSize) (chunkSize is schema-positive). -/
def uploadStart (env : UploadEnv) (st : UploadState) (b : StartBody) :
    UploadState × StartResponse :=
  if b.size > env.maxUploadBytes then
    (st, .errR ("file size exceeds maximum (" ++
      natToString (env.maxUploadBytes / 1024 / 1024) ++ "MB)") 413)
  else if b.chunkSize > env.maxChunkBytes then
    (st, .errR ("chunk size exceeds maximum (" ++
      natToString (env.maxChunkBytes / 1024 / 1024) ++ "MB)") 400)
  else
    match validatePath env.pathEnv (env.pathEnv.joinP b.path b.filename)
        ⟨false, true, bodyOwnership b⟩ with
    | .err msg status => (st, .errR msg status)
    | .ok _ _ =>
      match loadMeta st (computeUploadId env.shaHexStr b.path b.filename b.checksum) with
      | some existingMeta =>
        (saveMeta st { existingMeta with createdAt := env.now },
         .okR (computeUploadId env.shaHexStr b.path b.filename b.checksum)
           existingMeta.totalChunks existingMeta.chunkSize
           (getUploadedChunksFs (saveMeta st { existingMeta with createdAt := env.now })
             (computeUploadId env.shaHexStr b.path b.filename b.checksum)))
      | none =>
        (saveMeta st ⟨computeUploadId env.shaHexStr b.path b.filename b.checksum,
           b.path, b.filename, b.size, b.checksum, b.chunkSize,
           (b.size + b.chunkSize - 1) / b.chunkSize, bodyOwnership b, env.now⟩,
         .okR (computeUploadId env.shaHexStr b.path b.filename b.checksum)
           ((b.size + b.chunkSize - 1) / b.chunkSize) b.chunkSize [])

/-- A 64-character digest string used by the concrete upload examples. -/
def c64a : String :=
  "aaaaaaaaaaaaaaaaaaaaaaaaaaaaaaaaaaaaaaaaaaaaaaaaaaaaaaaaaaaaaaaa"

/-- Concrete path environment for the upload examples: one base /base, a
not-yet-existing target /base/f whose parent resolves. -/
def cPathEnv2 : PathEnv :=
  ⟨fun s => s,
   fun s => if s = "/base/f" then "/base" else "/",
   fun s => if s = "/base/f" then "f" else s,
   fun a b => a ++ "/" ++ b,
   fun s => if s = "/base" then .ok "/base" else .enoent,
   ["/base"]⟩

/-- Concrete upload environment: constant digest, generous caps, ownership
application always succeeding. -/
def cUpEnv : UploadEnv :=
  ⟨cPathEnv2, fun _ => c64a, fun _ => c64a, 100000000, 50000000, fun _ _ => none, 77⟩

/-- Concrete session metadata of the resume example: five chunks of 10240
bytes. -/
def cMeta3 : UploadMeta :=
  ⟨"aaaaaaaaaaaaaaaa", "/base", "f", 51200, "sha256:" ++ c64a, 10240, 5, none, 0⟩

/-- Concrete state of the resume example: the session exists with chunks 0
and 1 committed. -/
def cSt3 : UploadState :=
  ⟨[("aaaaaaaaaaaaaaaa", ⟨some cMeta3, [("0", [1]), ("1", [2])]⟩)], []⟩

/-- Concrete start body matching cMeta3. -/
def cStartBody : StartBody :=
  ⟨"/base", "f", 51200, "sha256:" ++ c64a, 10240, none, none, none, none⟩

/-- Concrete one-chunk session for the completion witness. -/
def cMeta4 : UploadMeta := ⟨"u1", "/base", "f", 1, "sha256:" ++ c64a, 1, 1, none, 0⟩

/-- Concrete state: the session u1 exists with no chunk yet. -/
def cSt4 : UploadState := ⟨[("u1", ⟨some cMeta4, []⟩)], []⟩

/-- Concrete chunk headers: index 0 of u1, no chunk checksum. -/
def cH4 : ChunkHeaders := ⟨"u1", 0, none⟩

/-- A second 64-character digest string, different from c64a. -/
def c64b : String :=
  "bbbbbbbbbbbbbbbbbbbbbbbbbbbbbbbbbbbbbbbbbbbbbbbbbbbbbbbbbbbbbbbb"

/-- Concrete one-chunk session whose recorded checksum does not match the
digest the environment computes. -/
def cMeta5 : UploadMeta := ⟨"u2", "/base", "f", 1, "sha256:" ++ c64b, 1, 1, none, 0⟩

/-- Concrete state for the mismatch run. -/
def cSt5 : UploadState := ⟨[("u2", ⟨some cMeta5, []⟩)], []⟩

/-- Concrete chunk headers for the mismatch run. -/
def cH5 : ChunkHeaders := ⟨"u2", 0, none⟩

/-- The matched base returned by findMatchingBase is the normalized form of
one of the scanned bases. -/
theorem findMatchingBase_mem (norm : String → String) (cleaned : String)
    (allow : Bool) (l : List String) (bp : String)
    (h : findMatchingBase norm cleaned allow l = .ok (some bp)) :
    ∃ b ∈ l, norm b = bp := by
  induction l with
  | nil => simp [findMatchingBase] at h
  | cons base rest ih =>
    by_cases h1 : cleaned = norm base
    · by_cases h2 : allow
      · simp [findMatchingBase, h1, h2] at h
        exact ⟨base, by simp, h⟩
      · simp [findMatchingBase, h1, h2] at h
    · by_cases h3 : strStartsWith cleaned (norm base ++ "/") = true
      · simp [findMatchingBase, h1, h3] at h
        exact ⟨base, by simp, h⟩
      · simp [findMatchingBase, h1, h3] at h
        obtain ⟨b, hb, hnb⟩ := ih h
        exact ⟨b, by simp [hb], hnb⟩

/-- An early error of the base-matching loop is always the 403 refusal to
operate on the base path itself. -/
theorem findMatchingBase_error (norm : String → String) (cleaned : String)
    (allow : Bool) (l : List String) (e : PathResult)
    (h : findMatchingBase norm cleaned allow l = .error e) :
    e = .err "cannot operate on base path" 403 := by
  induction l with
  | nil => simp [findMatchingBase] at h
  | cons base rest ih =>
    by_cases h1 : cleaned = norm base
    · by_cases h2 : allow
      · simp [findMatchingBase, h1, h2] at h
      · simp [findMatchingBase, h1, h2] at h
        exact h.symm
    · by_cases h3 : strStartsWith cleaned (norm base ++ "/") = true
      · simp [findMatchingBase, h1, h3] at h
      · simp [findMatchingBase, h1, h3] at h
        exact ih h

/-- An error of the resolution step is the 404 parent-not-found or the 400
resolution failure. -/
theorem resolveTarget_error (env : PathEnv) (cleaned : String) (e : PathResult)
    (h : resolveTarget env cleaned = .error e) :
    e = .err "parent path not found" 404 ∨ e = .err "path resolution failed" 400 := by
  unfold resolveTarget at h
  rcases hr : env.realpath cleaned with rp | _ | _ <;> rw [hr] at h
  · simp at h
  · rcases hp : env.realpath (env.dirname cleaned) with p | _ | _ <;> rw [hp] at h
    · simp at h
    · simp at h
      exact Or.inl h.symm
    · simp at h
      exact Or.inl h.symm
  · simp at h
    exact Or.inr h.symm

/-- C1: when validatePath succeeds the returned realPath equals the
realpath of the matched base (which is returned as basePath) or extends it
by a slash, and the returned basePath is the realpath of a configured base;
whenever the resolved target falls outside the realpath of the matched
base, validatePath fails with 403 "symlink escape not allowed". -/
theorem validatePath_symlink_containment (env : PathEnv) (path : String)
    (opts : ValidatePathOptions) :
    (∀ rp bp, validatePath env path opts = .ok rp bp →
      (rp = bp ∨ strStartsWith rp (bp ++ "/") = true) ∧
      ∃ b ∈ env.allowedPaths, env.realpath (env.normalize b) = .ok bp) ∧
    (∀ b rp realBase,
      findMatchingBase env.normalize (env.normalize path) opts.allowBasePath
        env.allowedPaths = .ok (some b) →
      resolveTarget env (env.normalize path) = .ok rp →
      env.realpath b = .ok realBase →
      rp ≠ realBase → strStartsWith rp (realBase ++ "/") = false →
      validatePath env path opts = .err "symlink escape not allowed" 403) := by
  constructor
  · intro rp bp h
    unfold validatePath at h
    rcases hfind : findMatchingBase env.normalize (env.normalize path)
        opts.allowBasePath env.allowedPaths with e | ob
    · rw [hfind] at h
      rw [findMatchingBase_error _ _ _ _ _ hfind] at h
      simp at h
    · rw [hfind] at h
      rcases ob with _ | basePath
      · simp at h
      · simp only at h
        rcases hres : resolveTarget env (env.normalize path) with e | realPath
        · rw [hres] at h
          rcases resolveTarget_error _ _ _ hres with he | he <;> rw [he] at h <;>
            simp at h
        · rw [hres] at h
          dsimp only at h
          rcases hrb : env.realpath basePath with realBase | _ | _
          · rw [hrb] at h
            dsimp only at h
            by_cases hc : realPath ≠ realBase ∧
                strStartsWith realPath (realBase ++ "/") = false
            · rw [if_pos hc] at h
              simp at h
            · rw [if_neg hc] at h
              simp only [PathResult.ok.injEq] at h
              obtain ⟨hrp, hbp⟩ := h
              rw [← hrp, ← hbp]
              constructor
              · rcases Classical.em (realPath = realBase) with he | hne
                · exact Or.inl he
                · right
                  rcases Bool.eq_false_or_eq_true
                      (strStartsWith realPath (realBase ++ "/")) with ht | hf
                  · exact ht
                  · exact absurd ⟨hne, hf⟩ hc
              · obtain ⟨b, hb, hnb⟩ := findMatchingBase_mem _ _ _ _ _ hfind
                exact ⟨b, hb, by rw [hnb]; exact hrb⟩
          · rw [hrb] at h; simp at h
          · rw [hrb] at h; simp at h
  · intro b rp realBase hfind hres hrb hne hsw
    simp only [validatePath, hfind, hres, hrb]
    rw [if_pos ⟨hne, hsw⟩]

/-- Witness for C1: on the concrete environment the request for /base/link,
whose resolved path /var escapes the base, is rejected with 403. -/
theorem validatePath_symlink_containment_witness :
    validatePath cPathEnv "/base/link" vpDefaults = .err "symlink escape not allowed" 403 :=
  (validatePath_symlink_containment cPathEnv "/base/link" vpDefaults).2
    "/base" "/var" "/base" (by rfl) (by rfl) (by rfl) (by decide) (by decide)

/-- C8: on every 9-bit mode the derived directory mode has each execute bit
set exactly when that principal's execute or read bit was set in the file
mode, every non-execute bit (read and write bits of the three principals)
is unchanged, no bit of the file mode is cleared, and the documented
examples 644 to 755, 600 to 700 and 640 to 750 hold. -/
theorem fileModeToDirectoryMode_spec (m : Nat) (hm : m < 512) :
    (Nat.testBit (fileModeToDirectoryMode m) 6 = (Nat.testBit m 6 || Nat.testBit m 8)) ∧
    (Nat.testBit (fileModeToDirectoryMode m) 3 = (Nat.testBit m 3 || Nat.testBit m 5)) ∧
    (Nat.testBit (fileModeToDirectoryMode m) 0 = (Nat.testBit m 0 || Nat.testBit m 2)) ∧
    (Nat.testBit (fileModeToDirectoryMode m) 8 = Nat.testBit m 8) ∧
    (Nat.testBit (fileModeToDirectoryMode m) 7 = Nat.testBit m 7) ∧
    (Nat.testBit (fileModeToDirectoryMode m) 5 = Nat.testBit m 5) ∧
    (Nat.testBit (fileModeToDirectoryMode m) 4 = Nat.testBit m 4) ∧
    (Nat.testBit (fileModeToDirectoryMode m) 2 = Nat.testBit m 2) ∧
    (Nat.testBit (fileModeToDirectoryMode m) 1 = Nat.testBit m 1) ∧
    m &&& fileModeToDirectoryMode m = m ∧
    fileModeToDirectoryMode 0o644 = 0o755 ∧
    fileModeToDirectoryMode 0o600 = 0o700 ∧
    fileModeToDirectoryMode 0o640 = 0o750 := by
  revert hm
  revert m
  set_option maxRecDepth 100000 in decide

/-- Witness for C8: the spec theorem applied at the concrete mode 644. -/
theorem fileModeToDirectoryMode_spec_witness :
    0o644 < 512 ∧ fileModeToDirectoryMode 0o644 = 0o755 :=
  ⟨by decide, (fileModeToDirectoryMode_spec 0o644 (by decide)).2.2.2.2.2.2.2.2.2.2.1⟩

/-- C9 counterexample: the files toggle maps the value "yes", which is not
"true", to true, so it is false that every string-boolean query parameter
maps every value other than "true" to false. -/
theorem parseFilesToggle_counterexample :
    parseFilesToggle (some "yes") = true ∧ ("yes" : String) ≠ "true" := by decide

/-- C9 amended: showHidden, inline and directories parse to true exactly on
the value "true" and hence to false when absent; the files toggle parses to
false exactly on the value "false" and hence to true when absent. -/
theorem stringBool_query_params (v : Option String) :
    (parseShowHidden v = true ↔ v = some "true") ∧
    (parseInlineFlag v = true ↔ v = some "true") ∧
    (parseDirectoriesToggle v = true ↔ v = some "true") ∧
    (parseFilesToggle v = false ↔ v = some "false") ∧
    parseShowHidden none = false ∧
    parseFilesToggle none = true ∧
    parseDirectoriesToggle none = false := by
  refine ⟨?_, ?_, ?_, ?_, ?_, ?_, ?_⟩ <;>
    simp [parseShowHidden, parseInlineFlag, parseDirectoriesToggle, parseFilesToggle]

/-- C4: the path lookup runs first, so a path hit reports action existing
with the hit row's id and refreshes only the stat fields, even when an
inode match exists as well; with no path hit, an inode hit reports moved,
preserves that row's id while overwriting its location; with neither, a
fresh row with the generated id is appended and reported as added.  In the
first two cases the table's ids are unchanged. -/
theorem indexFile_spec (genId basePath relPath : String) (s : StatInfo)
    (ts : Nat) (tbl : List Row) :
    (∀ r, tbl.find? (pathMatches basePath relPath) = some r →
       (indexFile genId basePath relPath s ts tbl).2 = ⟨r.id, .existing⟩ ∧
       (indexFile genId basePath relPath s ts tbl).1 =
         tbl.map (fun q => if q.id = r.id then updStat s ts q else q) ∧
       (indexFile genId basePath relPath s ts tbl).1.map Row.id = tbl.map Row.id) ∧
    (tbl.find? (pathMatches basePath relPath) = none →
     ∀ r, tbl.find? (inodeMatches s) = some r →
       (indexFile genId basePath relPath s ts tbl).2 = ⟨r.id, .moved⟩ ∧
       (indexFile genId basePath relPath s ts tbl).1 =
         tbl.map (fun q => if q.id = r.id then updMove basePath relPath s ts q else q) ∧
       (indexFile genId basePath relPath s ts tbl).1.map Row.id = tbl.map Row.id ∧
       (∀ q ∈ (indexFile genId basePath relPath s ts tbl).1,
          q.id = r.id → q.basePath = basePath ∧ q.relPath = relPath)) ∧
    (tbl.find? (pathMatches basePath relPath) = none →
     tbl.find? (inodeMatches s) = none →
     (indexFile genId basePath relPath s ts tbl).1 =
       tbl ++ [mkRow genId basePath relPath s ts] ∧
     (indexFile genId basePath relPath s ts tbl).2 = ⟨genId, .added⟩) := by
  refine ⟨?_, ?_, ?_⟩
  · intro r hr
    refine ⟨by simp only [indexFile, hr], by simp only [indexFile, hr], ?_⟩
    simp only [indexFile, hr]
    rw [List.map_map]
    apply List.map_congr_left
    intro q _
    by_cases hq : q.id = r.id <;> simp [hq, updStat]
  · intro hnone r hr
    refine ⟨by simp only [indexFile, hnone, hr],
      by simp only [indexFile, hnone, hr], ?_, ?_⟩
    · simp only [indexFile, hnone, hr]
      rw [List.map_map]
      apply List.map_congr_left
      intro q _
      by_cases hq : q.id = r.id <;> simp [hq, updMove]
    · simp only [indexFile, hnone, hr]
      intro q hq hid
      rw [List.mem_map] at hq
      obtain ⟨q0, _, hq0⟩ := hq
      by_cases h0 : q0.id = r.id
      · rw [if_pos h0] at hq0
        rw [← hq0]
        exact ⟨rfl, rfl⟩
      · rw [if_neg h0] at hq0
        rw [← hq0] at hid
        exact absurd hid h0
  · intro h1 h2
    exact ⟨by simp only [indexFile, h1, h2], by simp only [indexFile, h1, h2]⟩

/-- Witness for C4: on a table holding the target path, indexFile reports
existing with the stored id and refreshed stat fields. -/
theorem indexFile_spec_witness :
    (indexFile "fresh" "b" "x" ⟨2, 20, 7, 1, false⟩ 9 [cRow1, cRow2]).2 =
      ⟨"id1", .existing⟩ ∧
    (indexFile "fresh" "b" "x" ⟨2, 20, 7, 1, false⟩ 9 [cRow1, cRow2]).1 =
      [⟨"id1", "b", "x", 2, 20, 7, 1, false, 9⟩, cRow2] := by
  have h := (indexFile_spec "fresh" "b" "x" ⟨2, 20, 7, 1, false⟩ 9 [cRow1, cRow2]).1
    cRow1 (by decide)
  exact ⟨h.1, by rw [h.2.1]; decide⟩

/-- An empty LIKE pattern matches exactly the empty string. -/
theorem likeMatch_nil (s : List Char) : likeMatch [] s = s.isEmpty := by
  rw [likeMatch.eq_def]

/-- A lone percent pattern matches every string. -/
theorem likeMatch_percent (s : List Char) : likeMatch ['%'] s = true := by
  induction s with
  | nil =>
    rw [likeMatch.eq_def]
    simp [likeMatch_nil]
  | cons c s ih =>
    rw [likeMatch.eq_def]
    simp [likeMatch_nil, ih]

/-- The LIKE pattern built from an escaped value followed by slash and
percent matches exactly the strings extending the value by a slash. -/
theorem likeMatch_escape_append (cs s : List Char) :
    likeMatch (cs.flatMap escapeChar ++ ['/', '%']) s =
      (cs ++ ['/']).isPrefixOf s := by
  induction cs generalizing s with
  | nil =>
    cases s with
    | nil =>
      rw [likeMatch.eq_def]
      simp [List.isPrefixOf]
    | cons d s2 =>
      rw [likeMatch.eq_def]
      by_cases hd : d = '/'
      · simp [List.isPrefixOf, likeMatch_percent, hd]
      · have hdc : (d == '/') = false := beq_eq_false_iff_ne.mpr hd
        have hcd : ('/' == d) = false := beq_eq_false_iff_ne.mpr (Ne.symm hd)
        simp [List.isPrefixOf, hdc, hcd]
  | cons c cs ih =>
    by_cases hc : c = '\\' ∨ c = '%' ∨ c = '_'
    · cases s with
      | nil =>
        simp [escapeChar, hc]
        rw [likeMatch.eq_def]
        simp
      | cons d s2 =>
        simp only [List.flatMap_cons, escapeChar, hc, if_pos, List.cons_append,
          List.append_assoc]
        rw [likeMatch.eq_def]
        by_cases hd : d = c
        · simp [List.isPrefixOf, hd, ih]
        · have hdc : (d == c) = false := beq_eq_false_iff_ne.mpr hd
          have hcd : (c == d) = false := beq_eq_false_iff_ne.mpr (Ne.symm hd)
          simp [List.isPrefixOf, hdc, hcd]
    · push_neg at hc
      obtain ⟨h1, h2, h3⟩ := hc
      cases s with
      | nil =>
        simp only [List.flatMap_cons, escapeChar, h1, h2, h3, List.cons_append]
        rw [likeMatch.eq_def]
        simp [h1, h2, h3, List.isPrefixOf]
      | cons d s2 =>
        simp only [List.flatMap_cons, escapeChar, h1, h2, h3, List.cons_append]
        rw [likeMatch.eq_def]
        by_cases hd : d = c
        · simp [List.isPrefixOf, h1, h2, h3, hd, ih]
        · have hdc : (d == c) = false := beq_eq_false_iff_ne.mpr hd
          have hcd : (c == d) = false := beq_eq_false_iff_ne.mpr (Ne.symm hd)
          simp [List.isPrefixOf, h1, h2, h3, hdc, hcd]

/-- C5: with a non-empty relPath, removeFromIndexRecursive keeps exactly
the rows outside the base or whose rel_path neither equals relPath nor
starts with relPath followed by a slash — whatever characters relPath
holds, since the escaped LIKE pattern matches exactly the slash-extensions
of relPath, never a sibling that only pattern-matches. -/
theorem removeFromIndexRecursive_exact (basePath relPath : String) (tbl : List Row)
    (h : relPath ≠ "") :
    removeFromIndexRecursive basePath relPath tbl =
      tbl.filter (fun r =>
        !(r.basePath == basePath &&
          (r.relPath == relPath || strStartsWith r.relPath (relPath ++ "/")))) := by
  unfold removeFromIndexRecursive
  rw [if_neg h]
  dsimp only
  apply List.filter_congr
  intro r _
  have hd : (escapeLike relPath ++ "/" ++ "%").data =
      relPath.data.flatMap escapeChar ++ ['/', '%'] := by
    simp [escapeLike]
  have hsw : strStartsWith r.relPath (relPath ++ "/") =
      (relPath.data ++ ['/']).isPrefixOf r.relPath.data := by
    simp [strStartsWith]
  rw [hd, likeMatch_escape_append, hsw]

/-- Witness for C5: deleting a%b recursively removes the directory row and
its child but keeps the pattern-matching sibling's child. -/
theorem removeFromIndexRecursive_exact_witness :
    ("a%b" : String) ≠ "" ∧
    removeFromIndexRecursive "b" "a%b" [cRow3, cRow4, cRow5] = [cRow5] :=
  ⟨by decide, by
    rw [removeFromIndexRecursive_exact "b" "a%b" [cRow3, cRow4, cRow5] (by decide)]
    decide⟩

/-- The suffix loop returns the first free index of its window. -/
theorem findFreeSuffix_eq_some (env : UniqueEnv) (dir base ext : String)
    (start fuel i : Nat) (h1 : start ≤ i) (h2 : i < start + fuel)
    (hfree : env.access (uniqueCandidate env dir base ext i) = false)
    (hbusy : ∀ j, start ≤ j → j < i →
      env.access (uniqueCandidate env dir base ext j) = true) :
    findFreeSuffix env dir base ext start fuel = some i := by
  induction fuel generalizing start with
  | zero => omega
  | succ fuel ih =>
    unfold findFreeSuffix
    by_cases hs : start = i
    · rw [hs, hfree]
      simp
    · have hlt : start < i := lt_of_le_of_ne h1 hs
      rw [hbusy start le_rfl hlt]
      simp only [if_true]
      exact ih (start + 1) (by omega) (by omega)
        (fun j hj1 hj2 => hbusy j (by omega) hj2)

/-- The suffix loop fails when every candidate of its window exists. -/
theorem findFreeSuffix_eq_none (env : UniqueEnv) (dir base ext : String)
    (start fuel : Nat)
    (hbusy : ∀ j, start ≤ j → j < start + fuel →
      env.access (uniqueCandidate env dir base ext j) = true) :
    findFreeSuffix env dir base ext start fuel = none := by
  induction fuel generalizing start with
  | zero => rfl
  | succ fuel ih =>
    unfold findFreeSuffix
    rw [hbusy start le_rfl (by omega)]
    simp only [if_true]
    exact ih (start + 1) (fun j hj1 hj2 => hbusy j (by omega) (by omega))

/-- C7: getUniquePath returns the target itself when nothing exists there;
otherwise, when i in 1..99 is the smallest suffix whose candidate
dir/base-NN ext does not exist, it returns that candidate; and when every
candidate 01..99 exists it returns the timestamp fallback
dir/base-now ext. -/
theorem getUniquePath_spec (env : UniqueEnv) (targetPath : String) :
    (env.access targetPath = false → getUniquePath env targetPath = targetPath) ∧
    (∀ i, env.access targetPath = true → 1 ≤ i → i ≤ 99 →
      env.access (uniqueCandidate env (env.dirname targetPath)
        (env.basenameExt targetPath (env.extname targetPath))
        (env.extname targetPath) i) = false →
      (∀ j, 1 ≤ j → j < i →
        env.access (uniqueCandidate env (env.dirname targetPath)
          (env.basenameExt targetPath (env.extname targetPath))
          (env.extname targetPath) j) = true) →
      getUniquePath env targetPath = uniqueCandidate env (env.dirname targetPath)
        (env.basenameExt targetPath (env.extname targetPath))
        (env.extname targetPath) i) ∧
    (env.access targetPath = true →
      (∀ j, 1 ≤ j → j ≤ 99 →
        env.access (uniqueCandidate env (env.dirname targetPath)
          (env.basenameExt targetPath (env.extname targetPath))
          (env.extname targetPath) j) = true) →
      getUniquePath env targetPath = env.joinP (env.dirname targetPath)
        (env.basenameExt targetPath (env.extname targetPath) ++ "-" ++
          natToString env.now ++ env.extname targetPath)) := by
  refine ⟨?_, ?_, ?_⟩
  · intro h
    unfold getUniquePath
    rw [h]
    simp
  · intro i hacc h1 h99 hfree hbusy
    unfold getUniquePath
    rw [hacc]
    simp only [Bool.true_eq_false, if_false]
    rw [findFreeSuffix_eq_some env _ _ _ 1 99 i h1 (by omega) hfree hbusy]
  · intro hacc hbusy
    unfold getUniquePath
    rw [hacc]
    simp only [Bool.true_eq_false, if_false]
    rw [findFreeSuffix_eq_none env _ _ _ 1 99
      (fun j hj1 hj2 => hbusy j hj1 (by omega))]

/-- Witness for C7: with /d/a.txt and /d/a-01.txt taken, the chosen name is
/d/a-02.txt. -/
theorem getUniquePath_spec_witness :
    getUniquePath cUniqueEnv "/d/a.txt" = "/d/a-02.txt" := by
  have h := (getUniquePath_spec cUniqueEnv "/d/a.txt").2.1 2 (by decide) (by decide)
    (by decide) (by decide)
    (by intro j hj1 hj2
        interval_cases j
        decide)
  rw [h]
  decide

/-- Facts about the decimal digit character of r: it is a digit, not
whitespace, not a sign, and its code point recovers r. -/
theorem digitChar_facts (r : Nat) (h : r < 10) :
    (Char.ofNat (48 + r)).isDigit = true ∧
    ((Char.ofNat (48 + r)) == ' ' || (Char.ofNat (48 + r)) == '\t' ||
      (Char.ofNat (48 + r)) == '\n' || (Char.ofNat (48 + r)) == '\r') = false ∧
    Char.ofNat (48 + r) ≠ '-' ∧ Char.ofNat (48 + r) ≠ '+' ∧
    (Char.ofNat (48 + r)).toNat - 48 = r := by
  interval_cases r <;>
    exact ⟨by decide, by decide, by decide, by decide, by decide⟩

/-- Every character produced by natDecimalAux is a decimal digit, hence
neither whitespace nor a sign. -/
theorem natDecimalAux_chars (fuel n : Nat) :
    ∀ c ∈ natDecimalAux fuel n, c.isDigit = true ∧
      (c == ' ' || c == '\t' || c == '\n' || c == '\r') = false ∧
      c ≠ '-' ∧ c ≠ '+' := by
  induction fuel generalizing n with
  | zero =>
    intro c hc
    simp [natDecimalAux] at hc
  | succ fuel ih =>
    intro c hc
    unfold natDecimalAux at hc
    by_cases h10 : n < 10
    · rw [if_pos h10] at hc
      simp at hc
      subst hc
      obtain ⟨f1, f2, f3, f4, _⟩ := digitChar_facts n h10
      exact ⟨f1, f2, f3, f4⟩
    · rw [if_neg h10, List.mem_append] at hc
      rcases hc with hc | hc
      · exact ih (n / 10) c hc
      · simp at hc
        subst hc
        have hr : n % 10 < 10 := Nat.mod_lt _ (by norm_num)
        obtain ⟨f1, f2, f3, f4, _⟩ := digitChar_facts (n % 10) hr
        exact ⟨f1, f2, f3, f4⟩

/-- Appending one digit multiplies the accumulated value by ten. -/
theorem digitsToNat_append (xs : List Char) (c : Char) :
    digitsToNat (xs ++ [c]) = digitsToNat xs * 10 + (c.toNat - 48) := by
  simp [digitsToNat, List.foldl_append]

/-- With enough fuel, natDecimalAux is nonempty and folds back to n. -/
theorem natDecimalAux_val (fuel n : Nat) (h : n < fuel) :
    digitsToNat (natDecimalAux fuel n) = n ∧ natDecimalAux fuel n ≠ [] := by
  induction fuel generalizing n with
  | zero => omega
  | succ fuel ih =>
    unfold natDecimalAux
    by_cases h10 : n < 10
    · rw [if_pos h10]
      refine ⟨?_, by simp⟩
      have := (digitChar_facts n h10).2.2.2.2
      simp [digitsToNat]
      omega
    · rw [if_neg h10]
      have hdiv : n / 10 < fuel := by
        have h1 : n / 10 < n := Nat.div_lt_self (by omega) (by norm_num)
        omega
      obtain ⟨ihv, _⟩ := ih (n / 10) hdiv
      refine ⟨?_, by simp⟩
      rw [digitsToNat_append, ihv]
      have hr : n % 10 < 10 := Nat.mod_lt _ (by norm_num)
      have := (digitChar_facts (n % 10) hr).2.2.2.2
      omega

/-- A list of digit characters survives leadingDigits whole. -/
theorem leadingDigits_all (l : List Char) (h : ∀ c ∈ l, c.isDigit = true) :
    leadingDigits l = l := by
  induction l with
  | nil => rfl
  | cons c cs ih =>
    simp only [leadingDigits, h c (by simp), if_true]
    rw [ih (fun d hd => h d (by simp [hd]))]

/-- parseInt recovers every number from its decimal string: the chunk file
names written by the engine parse back to their indices. -/
theorem jsParseInt_natToString (n : Nat) :
    jsParseInt (natToString n) = some (n : Int) := by
  obtain ⟨hval, hne⟩ := natDecimalAux_val (n + 1) n (by omega)
  have hchars := natDecimalAux_chars (n + 1) n
  have hdata : (natToString n).data = natDecimalAux (n + 1) n := rfl
  unfold jsParseInt
  rw [hdata]
  rcases hl : natDecimalAux (n + 1) n with _ | ⟨d, rest⟩
  · exact absurd hl hne
  · have hd := hchars d (by rw [hl]; simp)
    have hdrop : List.dropWhile
        (fun c => c == ' ' || c == '\t' || c == '\n' || c == '\r') (d :: rest) =
        d :: rest := by
      rw [List.dropWhile_cons, if_neg (by rw [hd.2.1]; simp)]
    rw [hdrop]
    have hall : ∀ c ∈ d :: rest, c.isDigit = true := by
      intro c hc
      exact (hchars c (by rw [hl]; exact hc)).1
    have hlead : leadingDigits (d :: rest) = d :: rest := leadingDigits_all _ hall
    split
    · rename_i t heq
      injection heq with h1 _
      exact absurd h1 hd.2.2.1
    · rename_i t heq
      injection heq with h1 _
      exact absurd h1 hd.2.2.2
    · rw [hlead]
      simp only [List.isEmpty_cons, if_false, Bool.false_eq_true]
      rw [← hl, hval]

/-- Membership in the parsed chunk list: exactly the parseInt values of the
non-meta.json names. -/
theorem mem_getUploadedChunks (files : List String) (n : Int) :
    n ∈ getUploadedChunks files ↔
      ∃ f ∈ files, f ≠ "meta.json" ∧ jsParseInt f = some n := by
  unfold getUploadedChunks
  rw [List.Perm.mem_iff (List.perm_insertionSort _ _)]
  simp only [List.mem_filterMap, List.mem_filter]
  constructor
  · rintro ⟨f, ⟨hf, hne⟩, hp⟩
    refine ⟨f, hf, ?_, hp⟩
    simpa using hne
  · rintro ⟨f, hf, hne, hp⟩
    refine ⟨f, ⟨hf, ?_⟩, hp⟩
    simpa using hne

/-- C10 counterexample: the in-flight temp chunk name 3.tmp is not excluded
(its parseInt is 3, not NaN), so the listing meta.json, 3, 3.tmp yields the
duplicated, hence not strictly ascending, list [3, 3]. -/
theorem getUploadedChunks_counterexample :
    getUploadedChunks ["meta.json", "3", "3.tmp"] = [3, 3] ∧
    (getUploadedChunks ["meta.json", "3", "3.tmp"]).count 3 = 2 := by
  constructor <;> decide

/-- C10 amended: the uploadedChunks list drops meta.json and every name
with no leading integer, keeps the parseInt value of every other name
(an in-flight NN.tmp counts under NN), and is sorted ascending, though not
strictly: a committed chunk and its temp file yield a duplicate. -/
theorem getUploadedChunks_spec (files : List String) :
    List.Sorted (· ≤ ·) (getUploadedChunks files) ∧
    (getUploadedChunks files).Perm
      ((files.filter (fun f => !(f == "meta.json"))).filterMap jsParseInt) ∧
    ∀ n : Int, n ∈ getUploadedChunks files ↔
      ∃ f ∈ files, f ≠ "meta.json" ∧ jsParseInt f = some n :=
  ⟨List.sorted_insertionSort (· ≤ ·) _, List.perm_insertionSort _ _,
    mem_getUploadedChunks files⟩

/-- No chunk file name collides with the metadata file name. -/
theorem natToString_ne_metaJson (i : Nat) : natToString i ≠ "meta.json" := by
  intro h
  obtain ⟨_, hne⟩ := natDecimalAux_val (i + 1) i (by omega)
  have hchars := natDecimalAux_chars (i + 1) i
  have hdata : (natToString i).data = natDecimalAux (i + 1) i := rfl
  rcases hl : natDecimalAux (i + 1) i with _ | ⟨d, rest⟩
  · exact hne hl
  · have hd := (hchars d (by rw [hl]; simp)).1
    have hdm : (natToString i).data = ("meta.json" : String).data := by rw [h]
    rw [hdata, hl,
      show ("meta.json" : String).data = 'm' :: ("eta.json" : String).data from by decide]
      at hdm
    injection hdm with h1 _
    rw [h1] at hd
    exact absurd hd (by decide)

/-- Parsed chunk list of a session listing whose chunk files are named by
the decimal indices of L: a sorted permutation of L. -/
theorem getUploadedChunks_of_indices (d : SessionDir) (L : List Nat)
    (hmeta : d.meta.isSome = true)
    (hnames : d.files.map Prod.fst = L.map natToString) :
    List.Sorted (· ≤ ·) (getUploadedChunks (sessionListing d)) ∧
    (getUploadedChunks (sessionListing d)).Perm (L.map (fun i : Nat => (i : Int))) := by
  have hlist : sessionListing d = "meta.json" :: L.map natToString := by
    unfold sessionListing
    rw [hmeta, hnames]
    simp
  have hfil : (("meta.json" :: L.map natToString).filter
      (fun f => !(f == "meta.json"))) = L.map natToString := by
    rw [List.filter_cons]
    simp only [show (!("meta.json" == "meta.json")) = false from by decide,
      Bool.false_eq_true, if_false]
    rw [List.filter_eq_self.mpr]
    intro a ha
    rw [List.mem_map] at ha
    obtain ⟨i, _, hi⟩ := ha
    rw [← hi]
    simp [beq_eq_false_iff_ne.mpr (natToString_ne_metaJson i)]
  have hfm : (L.map natToString).filterMap jsParseInt = L.map (fun i : Nat => (i : Int)) := by
    rw [List.filterMap_map,
      show (jsParseInt ∘ natToString) = some ∘ (fun i : Nat => (i : Int)) from
        funext (fun i => jsParseInt_natToString i)]
    exact congrFun (List.filterMap_eq_map (fun i : Nat => (i : Int))) L
  constructor
  · exact List.sorted_insertionSort (· ≤ ·) _
  · unfold getUploadedChunks
    rw [hlist, hfil, hfm]
    exact List.perm_insertionSort _ _

/-- C3: every successful upload-start response carries the deterministic
upload id, the first 16 hex characters of the digest of
path:filename:checksum, so two start requests with the same triple get the
same id whatever the state; when a session with that id already exists and
the caps and the path gate pass, the response resumes it — same id, the
meta's totalChunks and chunkSize, the chunk indices listed from the session
directory, completed false (the okR shape); and on a directory whose chunk
files are the committed indices L, that listing is a sorted permutation of
L. -/
theorem uploadStart_deterministic_resume (env : UploadEnv) (st stB : UploadState)
    (b : StartBody) :
    (∀ uid tc cs ucs, (uploadStart env st b).2 = .okR uid tc cs ucs →
      uid = computeUploadId env.shaHexStr b.path b.filename b.checksum) ∧
    (∀ uid tc cs ucs uidB tcB csB ucsB,
      (uploadStart env st b).2 = .okR uid tc cs ucs →
      (uploadStart env stB b).2 = .okR uidB tcB csB ucsB → uid = uidB) ∧
    (∀ m rp bp, validatePath env.pathEnv (env.pathEnv.joinP b.path b.filename)
        ⟨false, true, bodyOwnership b⟩ = .ok rp bp →
      b.size ≤ env.maxUploadBytes → b.chunkSize ≤ env.maxChunkBytes →
      loadMeta st (computeUploadId env.shaHexStr b.path b.filename b.checksum) = some m →
      uploadStart env st b =
        (saveMeta st { m with createdAt := env.now },
         .okR (computeUploadId env.shaHexStr b.path b.filename b.checksum)
           m.totalChunks m.chunkSize
           (getUploadedChunksFs (saveMeta st { m with createdAt := env.now })
             (computeUploadId env.shaHexStr b.path b.filename b.checksum)))) ∧
    (∀ (d : SessionDir) (L : List Nat), d.meta.isSome = true →
      d.files.map Prod.fst = L.map natToString →
      List.Sorted (· ≤ ·) (getUploadedChunks (sessionListing d)) ∧
      (getUploadedChunks (sessionListing d)).Perm (L.map (fun i : Nat => (i : Int)))) := by
  have c1 : ∀ (stA : UploadState) uid tc cs ucs,
      (uploadStart env stA b).2 = .okR uid tc cs ucs →
      uid = computeUploadId env.shaHexStr b.path b.filename b.checksum := by
    intro stA uid tc cs ucs h
    unfold uploadStart at h
    by_cases h1 : b.size > env.maxUploadBytes
    · rw [if_pos h1] at h
      simp at h
    · rw [if_neg h1] at h
      by_cases h2 : b.chunkSize > env.maxChunkBytes
      · rw [if_pos h2] at h
        simp at h
      · rw [if_neg h2] at h
        rcases hv : validatePath env.pathEnv (env.pathEnv.joinP b.path b.filename)
            ⟨false, true, bodyOwnership b⟩ with ⟨rp, bp⟩ | ⟨msg, stt⟩
        · rw [hv] at h
          dsimp only at h
          rcases hm : loadMeta stA
              (computeUploadId env.shaHexStr b.path b.filename b.checksum) with _ | m <;>
            rw [hm] at h <;> dsimp only at h <;> simp at h <;> exact h.1.symm
        · rw [hv] at h
          simp at h
  refine ⟨c1 st, ?_, ?_, ?_⟩
  · intro uid tc cs ucs uidB tcB csB ucsB hA hB
    rw [c1 st uid tc cs ucs hA, c1 stB uidB tcB csB ucsB hB]
  · intro m rp bp hv hs hc hm
    unfold uploadStart
    rw [if_neg (by omega), if_neg (by omega), hv]
    dsimp only
    rw [hm]
  · intro d L hmeta hnames
    exact getUploadedChunks_of_indices d L hmeta hnames

/-- Witness for C3: the second start on the partially uploaded session
returns the same deterministic id, the stored totals, and uploadedChunks
[0, 1]. -/
theorem uploadStart_deterministic_resume_witness :
    uploadStart cUpEnv cSt3 cStartBody =
      (⟨[("aaaaaaaaaaaaaaaa", ⟨some ⟨"aaaaaaaaaaaaaaaa", "/base", "f", 51200,
          "sha256:" ++ c64a, 10240, 5, none, 77⟩, [("0", [1]), ("1", [2])]⟩)], []⟩,
       .okR "aaaaaaaaaaaaaaaa" 5 10240 [0, 1]) := by
  have h := (uploadStart_deterministic_resume cUpEnv cSt3 cSt3 cStartBody).2.2.1 cMeta3
    "/base/f" "/base" (by decide) (by decide) (by decide) (by decide)
  rw [h]
  decide

/-- Lookup misses after every pair with the key was filtered away (the rm
of a directory entry or session). -/
theorem lookup_filter_self {β : Type} (key : String) (l : List (String × β)) :
    List.lookup key (l.filter (fun p => !(p.1 == key))) = none := by
  induction l with
  | nil => rfl
  | cons p l ih =>
    obtain ⟨k, v⟩ := p
    rw [List.filter_cons]
    by_cases hp : k = key
    · simp only [hp, beq_self_eq_true, Bool.not_true, Bool.false_eq_true, if_false]
      exact ih
    · simp only [beq_eq_false_iff_ne.mpr hp, Bool.not_false, if_true]
      simp only [List.lookup, beq_eq_false_iff_ne.mpr (Ne.symm hp)]
      exact ih

/-- Lookup hits the freshly written head entry. -/
theorem lookup_head {β : Type} (key : String) (v : β) (l : List (String × β)) :
    List.lookup key ((key, v) :: l) = some v := by
  simp [List.lookup]

/-- When assembly reports no error on a session with chunks on disk, the
success path ran fully: the gate passed, all chunks were read, the digest
matched the recorded checksum, the destination was written and the session
directory removed. -/
theorem assembleFile_none (env : UploadEnv) (meta : UploadMeta) (st st2 : UploadState)
    (hne : getUploadedChunksFs st meta.uploadId ≠ [])
    (h : assembleFile env meta st = (st2, none)) :
    ∃ rp bp data,
      validatePath env.pathEnv (env.pathEnv.joinP meta.path meta.filename) vpDefaults =
        .ok rp bp ∧
      readChunksFrom (sessionFiles st meta.uploadId) 0 meta.totalChunks = .ok data ∧
      ("sha256:" ++ env.shaHex data) = meta.checksum ∧
      st2 = removeSession (writeDest st rp data) meta.uploadId := by
  unfold assembleFile at h
  rw [if_neg (fun hc => hne (List.length_eq_zero.mp hc))] at h
  by_cases h2 : ((getUploadedChunksFs st meta.uploadId).length == meta.totalChunks) = true
  · rw [if_neg (by rw [h2]; decide)] at h
    by_cases h3 : (((List.range meta.totalChunks).map (fun i : Nat => (i : Int))).filter
        (fun i => !((getUploadedChunksFs st meta.uploadId).contains i))).isEmpty = true
    · rw [if_neg (by rw [h3]; decide)] at h
      rcases hv : validatePath env.pathEnv (env.pathEnv.joinP meta.path meta.filename)
          vpDefaults with ⟨rp, bp⟩ | ⟨msg, stt⟩
      · rw [hv] at h
        dsimp only at h
        rcases hr : readChunksFrom (sessionFiles st meta.uploadId) 0 meta.totalChunks
            with i | data
        · rw [hr] at h
          simp at h
        · rw [hr] at h
          dsimp only at h
          by_cases h5 : (("sha256:" ++ env.shaHex data) == meta.checksum) = true
          · rw [if_neg (by rw [h5]; decide)] at h
            rcases ho : env.applyOwn rp meta.ownership with _ | e
            · rw [ho] at h
              dsimp only at h
              simp only [Prod.mk.injEq] at h
              exact ⟨rp, bp, data, rfl, rfl, eq_of_beq h5, h.1.symm⟩
            · rw [ho] at h
              simp at h
          · rw [if_pos (by rw [Bool.eq_false_iff.mpr h5]; decide)] at h
            simp at h
      · rw [hv] at h
        simp at h
    · rw [if_pos (by rw [Bool.eq_false_iff.mpr h3]; decide)] at h
      simp at h
  · rw [if_pos (by rw [Bool.eq_false_iff.mpr h2]; decide)] at h
    simp at h

/-- When every pre-check of assembly passes and the assembled digest
differs from the recorded checksum, assembly unlinks the destination and
reports the error naming the expected and the actual digests. -/
theorem assembleFile_mismatch (env : UploadEnv) (meta : UploadMeta) (st : UploadState)
    (rp bp : String) (data : List Nat)
    (hne : (getUploadedChunksFs st meta.uploadId).length ≠ 0)
    (hlen : (getUploadedChunksFs st meta.uploadId).length = meta.totalChunks)
    (hmiss : (((List.range meta.totalChunks).map (fun i : Nat => (i : Int))).filter
      (fun i => !((getUploadedChunksFs st meta.uploadId).contains i))) = [])
    (hval : validatePath env.pathEnv (env.pathEnv.joinP meta.path meta.filename)
      vpDefaults = .ok rp bp)
    (hread : readChunksFrom (sessionFiles st meta.uploadId) 0 meta.totalChunks = .ok data)
    (hck : ("sha256:" ++ env.shaHex data) ≠ meta.checksum) :
    assembleFile env meta st =
      (removeDest (writeDest st rp data) rp,
       some ("checksum mismatch: expected " ++ meta.checksum ++ ", got " ++
         ("sha256:" ++ env.shaHex data))) ∧
    List.lookup rp (removeDest (writeDest st rp data) rp).destFs = none := by
  constructor
  · unfold assembleFile
    rw [if_neg hne, if_neg (by rw [hlen]; simp), if_neg (by rw [hmiss]; decide), hval]
    dsimp only
    rw [hread]
    dsimp only
    rw [if_pos (by rw [beq_eq_false_iff_ne.mpr hck]; decide)]
  · exact lookup_filter_self rp (writeDest st rp data).destFs

/-- Every completed chunk response certifies the verified assembly: the
checksum reported is the meta's, the session directory is gone, and the
destination holds bytes whose digest is the recorded checksum.  The
hypothesis tying meta.uploadId to the request id holds for every session
written by upload/start, which stores the directory name in the meta. -/
theorem uploadChunk_completed (env : UploadEnv) (st : UploadState) (h : ChunkHeaders)
    (body : List Nat) (meta : UploadMeta) (st2 : UploadState)
    (nm pth ck : String) (hid : Bool)
    (hmeta : loadMeta st h.uploadId = some meta)
    (hid2 : meta.uploadId = h.uploadId)
    (hrun : uploadChunk env st h body = (st2, .completedR nm pth ck hid)) :
    ck = meta.checksum ∧ findSession st2 meta.uploadId = none ∧
    ∃ rp bp data,
      validatePath env.pathEnv (env.pathEnv.joinP meta.path meta.filename) vpDefaults =
        .ok rp bp ∧
      List.lookup rp st2.destFs = some data ∧
      ("sha256:" ++ env.shaHex data) = meta.checksum := by
  unfold uploadChunk at hrun
  rw [hmeta] at hrun
  dsimp only at hrun
  by_cases h1 : h.chunkIndex ≥ meta.totalChunks
  · rw [if_pos h1] at hrun
    simp at hrun
  · rw [if_neg h1] at hrun
    by_cases hb : body.length > env.maxChunkBytes
    · rw [if_pos hb] at hrun
      simp at hrun
    · rw [if_neg hb] at hrun
      have hstep : chunkCommitStep env st meta h.uploadId h.chunkIndex body =
          (st2, .completedR nm pth ck hid) := by
        rcases hcc : h.chunkChecksum with _ | c
        · rw [hcc] at hrun
          exact hrun
        · rw [hcc] at hrun
          dsimp only at hrun
          by_cases h3 : (!(("sha256:" ++ env.shaHex body) == c)) = true
          · rw [if_pos h3] at hrun
            simp at hrun
          · rw [if_neg h3] at hrun
            exact hrun
      unfold chunkCommitStep at hstep
      by_cases h4 : ((getUploadedChunksFs
          (commitChunk st h.uploadId (natToString h.chunkIndex) body)
          h.uploadId).length == meta.totalChunks) = true
      · rw [if_pos h4] at hstep
        rcases hasm : assembleFile env meta
            (commitChunk st h.uploadId (natToString h.chunkIndex) body) with ⟨st3, oerr⟩
        rw [hasm] at hstep
        rcases oerr with _ | e
        · dsimp only at hstep
          have hnonempty : getUploadedChunksFs
              (commitChunk st h.uploadId (natToString h.chunkIndex) body)
              meta.uploadId ≠ [] := by
            rw [hid2]
            intro hco
            rw [hco] at h4
            simp at h4
            omega
          obtain ⟨rp, bp, data, hval, hread, hck, hst3⟩ :=
            assembleFile_none env meta _ st3 hnonempty hasm
          simp only [Prod.mk.injEq, ChunkResponse.completedR.injEq] at hstep
          obtain ⟨hst23, _, _, hck2, _⟩ := hstep
          refine ⟨hck2.symm, ?_, rp, bp, data, hval, ?_, hck⟩
          · rw [← hst23, hst3]
            exact lookup_filter_self meta.uploadId (writeDest _ rp data).sessions
          · rw [← hst23, hst3]
            exact lookup_head rp data _
        · dsimp only at hstep
          simp at hstep
      · rw [if_neg h4] at hstep
        simp at hstep

/-- C2: for every chunk request answered with completed true, the
destination file named by the path gate holds bytes whose SHA-256 digest
equals the session's recorded checksum and the session's upload directory
no longer exists; and whenever the assembled digest differs from the
recorded checksum (all earlier assembly checks passing), assembly unlinks
the destination and fails with the message naming the expected and the
actual digests.  meta.uploadId = request id holds for every session
created by upload/start. -/
theorem upload_completion_checksum_cleanup :
    (∀ (env : UploadEnv) (st : UploadState) (h : ChunkHeaders) (body : List Nat)
       (meta : UploadMeta) (st2 : UploadState) (nm pth ck : String) (hid : Bool),
      loadMeta st h.uploadId = some meta →
      meta.uploadId = h.uploadId →
      uploadChunk env st h body = (st2, .completedR nm pth ck hid) →
      ck = meta.checksum ∧ findSession st2 meta.uploadId = none ∧
      ∃ rp bp data,
        validatePath env.pathEnv (env.pathEnv.joinP meta.path meta.filename) vpDefaults =
          .ok rp bp ∧
        List.lookup rp st2.destFs = some data ∧
        ("sha256:" ++ env.shaHex data) = meta.checksum) ∧
    (∀ (env : UploadEnv) (meta : UploadMeta) (st : UploadState) (rp bp : String)
       (data : List Nat),
      (getUploadedChunksFs st meta.uploadId).length ≠ 0 →
      (getUploadedChunksFs st meta.uploadId).length = meta.totalChunks →
      (((List.range meta.totalChunks).map (fun i : Nat => (i : Int))).filter
        (fun i => !((getUploadedChunksFs st meta.uploadId).contains i))) = [] →
      validatePath env.pathEnv (env.pathEnv.joinP meta.path meta.filename) vpDefaults =
        .ok rp bp →
      readChunksFrom (sessionFiles st meta.uploadId) 0 meta.totalChunks = .ok data →
      ("sha256:" ++ env.shaHex data) ≠ meta.checksum →
      assembleFile env meta st =
        (removeDest (writeDest st rp data) rp,
         some ("checksum mismatch: expected " ++ meta.checksum ++ ", got " ++
           ("sha256:" ++ env.shaHex data))) ∧
      List.lookup rp (removeDest (writeDest st rp data) rp).destFs = none) :=
  ⟨fun env st h body meta st2 nm pth ck hid hmeta hid2 hrun =>
    uploadChunk_completed env st h body meta st2 nm pth ck hid hmeta hid2 hrun,
   fun env meta st rp bp data hne hlen hmiss hval hread hck =>
    assembleFile_mismatch env meta st rp bp data hne hlen hmiss hval hread hck⟩

/-- Witness for C2: the single-chunk upload completes, its checksum matches
the meta, and its session directory is gone. -/
theorem upload_completion_checksum_cleanup_witness :
    ("sha256:" ++ c64a) = cMeta4.checksum ∧
    findSession (⟨[], [("/base/f", [7])]⟩ : UploadState) cMeta4.uploadId = none := by
  have h := (upload_completion_checksum_cleanup).1 cUpEnv cSt4 cH4 [7] cMeta4
    ⟨[], [("/base/f", [7])]⟩ "f" "/base/f" ("sha256:" ++ c64a) false
    (by decide) (by decide) (by decide)
  exact ⟨h.1, h.2.1⟩

/-- C6 counterexample: the final-assembly checksum mismatch reaches the
client with status 500, not 400 — the chunk handler maps every assembly
error to 500. -/
theorem assembly_mismatch_status_counterexample :
    (uploadChunk cUpEnv cSt5 cH5 [7]).2 =
      .errR ("checksum mismatch: expected " ++ ("sha256:" ++ c64b) ++ ", got " ++
        ("sha256:" ++ c64a)) 500 := by
  set_option maxRecDepth 100000 in decide

/-- C6 amended: a chunk-level checksum mismatch (x-chunk-checksum present
and different from the computed digest) is answered with 400, while every
assembly error, the final-file checksum mismatch included, is answered
with 500. -/
theorem checksum_mismatch_statuses :
    (∀ (env : UploadEnv) (st : UploadState) (h : ChunkHeaders) (body : List Nat)
       (meta : UploadMeta) (c : String),
      loadMeta st h.uploadId = some meta →
      ¬ h.chunkIndex ≥ meta.totalChunks →
      ¬ body.length > env.maxChunkBytes →
      h.chunkChecksum = some c →
      ("sha256:" ++ env.shaHex body) ≠ c →
      uploadChunk env st h body =
        (st, .errR ("chunk checksum mismatch: expected " ++ c ++ ", got " ++
          ("sha256:" ++ env.shaHex body)) 400)) ∧
    (∀ (env : UploadEnv) (st : UploadState) (h : ChunkHeaders) (body : List Nat)
       (meta : UploadMeta) (st2 : UploadState) (e : String),
      loadMeta st h.uploadId = some meta →
      ¬ h.chunkIndex ≥ meta.totalChunks →
      ¬ body.length > env.maxChunkBytes →
      h.chunkChecksum = none ∨ h.chunkChecksum = some ("sha256:" ++ env.shaHex body) →
      assembleFile env meta (commitChunk st h.uploadId (natToString h.chunkIndex) body) =
        (st2, some e) →
      (getUploadedChunksFs (commitChunk st h.uploadId (natToString h.chunkIndex) body)
        h.uploadId).length = meta.totalChunks →
      uploadChunk env st h body = (st2, .errR e 500)) := by
  constructor
  · intro env st h body meta c hmeta h1 hb hcc hne
    unfold uploadChunk
    rw [hmeta]
    dsimp only
    rw [if_neg h1, if_neg hb, hcc]
    dsimp only
    rw [if_pos (by rw [beq_eq_false_iff_ne.mpr hne]; decide)]
  · intro env st h body meta st2 e hmeta h1 hb hcc hasm hlen
    unfold uploadChunk
    rw [hmeta]
    dsimp only
    rw [if_neg h1, if_neg hb]
    have hstep : chunkCommitStep env st meta h.uploadId h.chunkIndex body =
        (st2, .errR e 500) := by
      unfold chunkCommitStep
      rw [if_pos (by rw [hlen]; simp), hasm]
    rcases hcc with hcc | hcc
    · rw [hcc]
      dsimp only
      exact hstep
    · rw [hcc]
      dsimp only
      rw [if_neg (by simp)]
      exact hstep

/-- Witness for C6: a tampered chunk checksum header is refused with 400
and the message naming both digests. -/
theorem checksum_mismatch_statuses_witness :
    uploadChunk cUpEnv cSt4 ⟨"u1", 0, some ("sha256:" ++ c64b)⟩ [7] =
      (cSt4, .errR ("chunk checksum mismatch: expected " ++ ("sha256:" ++ c64b) ++
        ", got " ++ ("sha256:" ++ c64a)) 400) :=
  (checksum_mismatch_statuses).1 cUpEnv cSt4 ⟨"u1", 0, some ("sha256:" ++ c64b)⟩ [7]
    cMeta4 ("sha256:" ++ c64b) (by decide) (by decide) (by decide) (by decide) (by decide)

end Filegate
